import Mathlib

/-!
Shallow embedding of `realistic_wordlist.py` (WordCrack repository).

Strings are modelled as `List Char`.  Python `set`s are modelled as
duplicate-free lists built by `insertIfNew` (insertion order); every place
where the Python program observes the *iteration order* of a set (the
`list(candidates)[:N]` prefix caps, the order of `extract_tokens`' result,
and the shuffles of `random.shuffle`) is parameterised by an order-choosing
function `ord : Nat → List Str → List Str` which theorems constrain to be a
permutation.  A concrete Python run corresponds to one choice of `ord`.
-/

set_option maxRecDepth 8000

abbrev Str := List Char

/-- Coerces a Lean string literal to the `List Char` representation. -/
def str (s : String) : Str := s.data

/-- CONFIG: `WATERMARK = "--EDU"`. -/
def WATERMARK : Str := str "--EDU"

/-- CONFIG: `MAX_OUTPUT = 5000`. -/
def MAX_OUTPUT : Nat := 5000

/-- CONFIG: `COMMON_BLACKLIST` (a Python set; only membership is used). -/
def COMMON_BLACKLIST : List Str :=
  [str "123456", str "password", str "qwerty", str "admin", str "letmein",
   str "welcome", str "12345678", str "123456789", str "1234567890",
   str "abc123", str "password1"]

/-- Whitespace characters matched by the regex class in `re.sub` for the
ASCII inputs the program handles. -/
def isPySpace (c : Char) : Bool :=
  c = ' ' ∨ c = '\t' ∨ c = '\n' ∨ c = '\r' ∨ c = Char.ofNat 11 ∨ c = Char.ofNat 12

/-- `sanitize`: removes every whitespace character and lowercases
(the `.strip()` after removing all whitespace is a no-op). -/
def sanitize (s : Str) : Str :=
  (s.filter (fun c => !(isPySpace c))).map Char.toLower

/-- A payload value: the spec's InputRecord values are strings or sequences
of strings. -/
inductive Val where
  | s (v : Str)
  | l (vs : List Str)
deriving DecidableEq

/-- Python truthiness for payload values: a string or list is truthy iff
nonempty. -/
def Val.truthy : Val → Bool
  | .s v => !v.isEmpty
  | .l vs => !vs.isEmpty

/-- An InputRecord: a dict modelled as an association list (unique keys for
real payloads; iteration in insertion order, as for a Python dict). -/
abbrev Record := List (String × Val)

/-- `skip_keys` of `extract_tokens`. -/
def skipKeys : List String :=
  ["auth_phrase", "count", "min_len", "max_len",
   "include_specials", "include_uppercase",
   "extra_words", "important_years", "apps"]

/-- Appends `s` to the list if not already present: the effect of adding one
element to a Python set, keeping insertion order. -/
def insertIfNew (l : List Str) (s : Str) : List Str :=
  if s ∈ l then l else l ++ [s]

/-- Deduplication keeping first occurrences: the element content of a Python
set built by successive additions. -/
def dedupKeepFirst (l : List Str) : List Str :=
  l.foldl insertIfNew []

/-- `extract_tokens`: every field outside `skip_keys` with a truthy value is
sanitized (string) or element-wise sanitized (list); `extra_words` contents
are then merged in (iterating a string value yields its characters, as
Python's `for x in v` would); finally empty strings are dropped.  The
resulting list is the set's content in insertion order; call sites apply an
order parameter. -/
def extractStep (acc : List Str) (kv : String × Val) : List Str :=
  if kv.1 ∈ skipKeys ∨ ¬ kv.2.truthy then acc
  else match kv.2 with
    | .s v => acc ++ [sanitize v]
    | .l vs => acc ++ (vs.filter (fun x => !x.isEmpty)).map sanitize

/-- The `if data.get("extra_words"):` merge step (iterating a string value
yields its characters, as Python's `for x in v` would). -/
def extraWords (data : Record) : List Str :=
  match List.lookup "extra_words" data with
  | some (.l vs) => (vs.filter (fun x => !x.isEmpty)).map sanitize
  | some (.s v) => if v.isEmpty then [] else v.map (fun c => sanitize [c])
  | _ => []

def extractTokens (data : Record) : List Str :=
  (dedupKeepFirst (data.foldl extractStep [] ++ extraWords data)).filter
    (fun t => !t.isEmpty)

/-- DOB parts `dd / mm / yyyy / full` as produced by `parse_dob`. -/
structure DOBParts where
  dd : Str
  mm : Str
  yyyy : Str
  full : Str
deriving DecidableEq

/-- `parse_dob`: full match of `(\d2)/(\d2)/(\d4)`; `none` models the raised
`ValueError`. -/
def parseDob (dob : Str) : Option DOBParts :=
  match dob with
  | [a, b, s1, c, d, s2, e, f, g, h] =>
      if a.isDigit ∧ b.isDigit ∧ s1 = '/' ∧ c.isDigit ∧ d.isDigit ∧ s2 = '/' ∧
         e.isDigit ∧ f.isDigit ∧ g.isDigit ∧ h.isDigit then
        some ⟨[a, b], [c, d], [e, f, g, h], [a, b, c, d, e, f, g, h]⟩
      else none
  | _ => none

/-- Python `str.strip()`: trims whitespace from both ends. -/
def pyStrip (s : Str) : Str :=
  (s.dropWhile isPySpace).reverse.dropWhile isPySpace |>.reverse

/-- Python `s[-4:]`: the last four characters (whole string if shorter). -/
def lastFour (s : Str) : Str := s.drop (s.length - 4)

/-- `get_years`: DOB year (when `dob` is truthy and parses) plus each truthy
`important_years` element as `str(y).strip()[-4:]`; content of the set in
insertion order (iterating a string value yields its characters). -/
def getYears (data : Record) : List Str :=
  let fromDob : List Str := match List.lookup "dob" data with
    | some (.s v) =>
        if v.isEmpty then []
        else match parseDob v with
          | some p => [p.yyyy]
          | none => []
    | _ => []
  let fromImportant : List Str := match List.lookup "important_years" data with
    | some (.l vs) => (vs.filter (fun y => !y.isEmpty)).map (fun y => lastFour (pyStrip y))
    | some (.s v) => if v.isEmpty then [] else v.map (fun c => lastFour (pyStrip [c]))
    | _ => []
  dedupKeepFirst (fromDob ++ fromImportant)

/-- Python `str.capitalize()`: first character uppercased, the rest
lowercased. -/
def pyCapitalize (s : Str) : Str :=
  match s with
  | [] => []
  | c :: cs => Char.toUpper c :: cs.map Char.toLower

/-- The alternating-case variant `c.upper() if i % 2 == 0 else c.lower()`. -/
def alternatingCase (s : Str) : Str :=
  s.enum.map (fun ic => if ic.1 % 2 = 0 then ic.2.toUpper else ic.2.toLower)

/-- `case_variants`: lowercase; if `include_upper` also uppercase,
`str.capitalize()`, and (when length > 1) the alternating-case variant. -/
def caseVariants (token : Str) (includeUpper : Bool) : List Str :=
  [token.map Char.toLower] ++
    (if includeUpper then
      [token.map Char.toUpper, pyCapitalize token] ++
        (if token.length > 1 then [alternatingCase token] else [])
    else [])

/-- The leet translation applied by `token.translate(table)`: the table built
by `str.maketrans` is keyed on the ordinals of the lowercase letters, so only
lowercase occurrences are substituted. -/
def leetChar (c : Char) : Char :=
  if c = 'a' then '4' else if c = 'e' then '3' else if c = 'i' then '1'
  else if c = 'o' then '0' else if c = 's' then '5' else if c = 't' then '7'
  else if c = 'g' then '9' else if c = 'b' then '8' else c

/-- `c.lower() in 'aeiostgb'`. -/
def isLeetChar (c : Char) : Bool :=
  c.toLower ∈ (str "aeiostgb")

/-- The value of `table.get(c, c)` in `leet_variants`: `table` maps
*ordinals* (ints) to replacement strings, so looking up the character `c`
itself always misses and returns the default `c`. -/
def tableGetChar (c : Char) : Char := c

/-- `leet_variants`: the full translation, then for every position whose
character satisfies `c.lower() in 'aeiostgb'` the string
`token[:i] + table.get(c, c) + token[i+1:]`. -/
def leetVariants (token : Str) : List Str :=
  token.map leetChar ::
    token.enum.filterMap (fun ic =>
      if isLeetChar ic.2 then
        some (token.take ic.1 ++ [tableGetChar ic.2] ++ token.drop (ic.1 + 1))
      else none)

/-- The symbol set of `append_specials`. -/
def appendSymbols : List Char := ['!', '@', '#', '$', '*']

/-- `append_specials`: `base + s` for each symbol, then `s + base`. -/
def appendSpecials (base : Str) (include' : Bool) : List Str :=
  if ¬ include' then []
  else appendSymbols.map (fun s => base ++ [s]) ++
       appendSymbols.map (fun s => [s] ++ base)

/-- The symbol set of `insert_special`. -/
def insertSymbols : List Char := ['!', '@', '1', '2']

/-- `insert_special`: each symbol inserted at every interior position
`1 .. len(base)-1`; empty if disabled or `len(base) < 2`. -/
def insertSpecial (base : Str) (include' : Bool) : List Str :=
  if ¬ include' ∨ base.length < 2 then []
  else insertSymbols.flatMap (fun sp =>
    (List.range' 1 (base.length - 1)).map (fun i => base.take i ++ [sp] ++ base.drop i))

/-- The fixed fallback number list of `numeric_suffixes`. -/
def fallbackNumbers : List Str :=
  [str "1", str "2", str "3", str "123", str "007", str "69", str "420",
   str "12", str "21"]

/-- `numeric_suffixes`: `base + n` and `n + base` for every `n` in the
supplied list followed by the fallback list. -/
def numericSuffixes (base : Str) (numbers : List Str) : List Str :=
  (numbers ++ fallbackNumbers).flatMap (fun n => [base ++ n, n ++ base])

/-- Digits of a 4-character year to a natural number, for `int(y)`. -/
def natOfDigits (s : Str) : Nat :=
  s.foldl (fun acc c => 10 * acc + (c.toNat - '0'.toNat)) 0

/-- `str(int(y) + d)` for an integer offset `d` (Python renders negatives
with a minus sign, hence `Int`). -/
def strOfIntYear (y : Str) (d : Int) : Str :=
  (toString ((natOfDigits y : Int) + d)).data

/-- `date_variants`: the seven fixed derivations. -/
def dateVariants (p : DOBParts) : List Str :=
  [p.full,
   p.dd ++ p.mm ++ p.yyyy,
   p.yyyy,
   p.yyyy.drop (p.yyyy.length - 2),
   strOfIntYear p.yyyy (-1),
   strOfIntYear p.yyyy 1,
   p.dd ++ [ '-' ] ++ p.mm ++ [ '-' ] ++ p.yyyy]

/-- Admission predicate of `add`: length within bounds and not
blacklisted. -/
def accepts (minLen maxLen : Nat) (w : Str) : Bool :=
  minLen ≤ w.length ∧ w.length ≤ maxLen ∧ w ∉ COMMON_BLACKLIST

/-- `add(w)`: admits `w + WATERMARK` into the candidate set iff
`min_len <= len(w) <= max_len` and `w` is not blacklisted. -/
def addC (minLen maxLen : Nat) (cands : List Str) (w : Str) : List Str :=
  if accepts minLen maxLen w then insertIfNew cands (w ++ WATERMARK) else cands

/-- `w[:-len(WATERMARK)]`. -/
def stripW (w : Str) : Str := w.take (w.length - WATERMARK.length)

/-- A transform stage over a snapshot of the candidate set: for each
snapshot element, strip the watermark and feed every output of `f` through
`add`. -/
def runStage (f : Str → List Str) (minLen maxLen : Nat)
    (cands : List Str) (snap : List Str) : List Str :=
  snap.foldl (fun acc w => (f (stripW w)).foldl (addC minLen maxLen) acc) cands

/-- The raw string value of a field (empty when absent or not a string). -/
def rawStr (data : Record) (k : String) : Str :=
  match List.lookup k data with
  | some (.s v) => v
  | _ => []

/-- `sanitize(data.get("full_name") or data.get("nickname") or "")`. -/
def nameOf (data : Record) : Str :=
  sanitize (if (rawStr data "full_name").isEmpty then rawStr data "nickname"
            else rawStr data "full_name")

/-- `dob_parts`: parsed DOB when the field is truthy and parses; the bare
`except: pass` leaves it empty otherwise. -/
def dobPartsOf (data : Record) : Option DOBParts :=
  match List.lookup "dob" data with
  | some (.s v) => if v.isEmpty then none else parseDob v
  | _ => none

/-- The `numbers` list of `generate_realistic`: `get_years`, then the
sanitized lucky number if truthy, then (if the sanitized phone is exactly
ten digits) its last four digits and the full ten digits. -/
def numbersOf (data : Record) : List Str :=
  let lucky : List Str := match List.lookup "lucky_number" data with
    | some (.s v) => if v.isEmpty then [] else [sanitize v]
    | _ => []
  let phone : List Str := match List.lookup "phone" data with
    | some (.s v) =>
        if v.isEmpty then []
        else
          let p := sanitize v
          if p.length = 10 ∧ p.all Char.isDigit then [p.drop 6, p] else []
    | _ => []
  getYears data ++ lucky ++ phone

/-- Stage: `if name and dob_parts:` add `name + d` and `d + name` for every
date variant. -/
def stageNameDate (minLen maxLen : Nat) (name : Str) (dp : Option DOBParts)
    (cands : List Str) : List Str :=
  match dp with
  | some p =>
      if name.isEmpty then cands
      else (dateVariants p).foldl
        (fun acc d => addC minLen maxLen (addC minLen maxLen acc (name ++ d)) (d ++ name))
        cands
  | none => cands

/-- Stage: `if name and data.get("lucky_number"):` add `name + n` and
`n + name` for the sanitized lucky number. -/
def stageNameLucky (minLen maxLen : Nat) (name : Str) (data : Record)
    (cands : List Str) : List Str :=
  match List.lookup "lucky_number" data with
  | some (.s v) =>
      if name.isEmpty ∨ v.isEmpty then cands
      else
        let n := sanitize v
        addC minLen maxLen (addC minLen maxLen cands (name ++ n)) (n ++ name)
  | _ => cands

/-- `itertools.combinations(l, 2)` in iteration order. -/
def combos2 (l : List Str) : List (Str × Str) :=
  match l with
  | [] => []
  | x :: xs => xs.map (fun y => (x, y)) ++ combos2 xs

/-- Stage: for every token pair add `a+b`, `a+"."+b`, `a+"_"+b`. -/
def stagePairs (minLen maxLen : Nat) (tokens : List Str)
    (cands : List Str) : List Str :=
  (combos2 tokens).foldl
    (fun acc ab =>
      addC minLen maxLen
        (addC minLen maxLen
          (addC minLen maxLen acc (ab.1 ++ ab.2))
          (ab.1 ++ [ '.' ] ++ ab.2))
        (ab.1 ++ [ '_' ] ++ ab.2))
    cands

/-- One element/rest split per position, preserving order: the engine of
`itertools.permutations`. -/
def pickEach : List Str → List (Str × List Str)
  | [] => []
  | x :: xs => (x, xs) :: (pickEach xs).map (fun p => (p.1, x :: p.2))

/-- `itertools.permutations(l, r)` in iteration order. -/
def permsR : Nat → List Str → List (List Str)
  | 0, _ => [[]]
  | r + 1, l => (pickEach l).flatMap (fun p => (permsR r p.2).map (fun q => p.1 :: q))

/-- `[''.join(p) for r in (2, 3) for p in permutations(tokens, r)]`. -/
def permsList (tokens : List Str) : List Str :=
  (permsR 2 tokens).map List.flatten ++ (permsR 3 tokens).map List.flatten

/-- The permutation fallback loop: feed permutations through `add` one at a
time, decrementing the budget on every attempt and breaking when it is
exhausted; also returns the unconsumed permutations. -/
def permFallback (minLen maxLen : Nat) :
    List Str → Nat → List Str → List Str × List Str
  | cands, _, [] => (cands, [])
  | cands, 0, ps => (cands, ps)
  | cands, r + 1, p :: ps => permFallback minLen maxLen (addC minLen maxLen cands p) r ps

/-- Stage: `if include_uppercase:` run `case_variants` over the first 300
snapshot elements (`ord 1` resolves the set iteration order). -/
def caseStage (ord : Nat → List Str → List Str) (minLen maxLen : Nat)
    (includeUppercase : Bool) (c : List Str) : List Str :=
  if includeUppercase then
    runStage (fun b => caseVariants b true) minLen maxLen c ((ord 1 c).take 300)
  else c

/-- Stage: `leet_variants` over the first 200 snapshot elements. -/
def leetStage (ord : Nat → List Str → List Str) (minLen maxLen : Nat)
    (c : List Str) : List Str :=
  runStage leetVariants minLen maxLen c ((ord 2 c).take 200)

/-- Stage: `if include_specials:` append then insert specials over the first
400 snapshot elements. -/
def specialsStage (ord : Nat → List Str → List Str) (minLen maxLen : Nat)
    (includeSpecials : Bool) (c : List Str) : List Str :=
  if includeSpecials then
    runStage (fun b => appendSpecials b true ++ insertSpecial b true)
      minLen maxLen c ((ord 3 c).take 400)
  else c

/-- Stage: `numeric_suffixes` over the first 300 snapshot elements. -/
def numericStage (ord : Nat → List Str → List Str) (minLen maxLen : Nat)
    (numbers : List Str) (c : List Str) : List Str :=
  runStage (fun b => numericSuffixes b numbers) minLen maxLen c ((ord 4 c).take 300)

/-- The permutation fallback: run only when the accumulated count is below
`count`, on the shuffled (`ord 5`) permutation list. -/
def fallbackStage (ord : Nat → List Str → List Str) (minLen maxLen count : Nat)
    (tokens : List Str) (c : List Str) : List Str :=
  if c.length < count then
    (permFallback minLen maxLen c (count - c.length) (ord 5 (permsList tokens))).1
  else c

/-- The candidate set accumulated by `generate_realistic` before the final
shuffle and truncation: the ordered chain of transform stages over the empty
set.  `name`, `dp` and `numbers` are the derived facts the caller computes
from the record. -/
def pipelineSet (ord : Nat → List Str → List Str) (tokens : List Str)
    (name : Str) (dp : Option DOBParts) (numbers : List Str) (data : Record)
    (count minLen maxLen : Nat)
    (includeSpecials includeUppercase : Bool) : List Str :=
  fallbackStage ord minLen maxLen count tokens
    (numericStage ord minLen maxLen numbers
      (specialsStage ord minLen maxLen includeSpecials
        (leetStage ord minLen maxLen
          (caseStage ord minLen maxLen includeUppercase
            (stagePairs minLen maxLen tokens
              (stageNameLucky minLen maxLen name data
                (stageNameDate minLen maxLen name dp [])))))))

/-- `generate_realistic`: extract tokens (in unspecified set order, `ord 0`),
short-circuit when empty, run the pipeline, then shuffle (`ord 6`) and
truncate to `min(count, MAX_OUTPUT)`. -/
def generateRealistic (ord : Nat → List Str → List Str) (data : Record)
    (count minLen maxLen : Nat)
    (includeSpecials includeUppercase : Bool) : List Str :=
  if (ord 0 (extractTokens data)).isEmpty then []
  else
    (ord 6 (pipelineSet ord (ord 0 (extractTokens data)) (nameOf data)
      (dobPartsOf data) (numbersOf data) data count minLen maxLen
      includeSpecials includeUppercase)).take (min count MAX_OUTPUT)

/-- Modelled from the spec (SoftDegradation, §7): the generator run "without
DOB-derived facts" — the date-variant stage receives no DOB parts and the
number pool is built without the DOB year, everything else unchanged.  Used
as the comparison side for the error-swallowing claim. -/
def getYearsNoDob (data : Record) : List Str :=
  let fromImportant : List Str := match List.lookup "important_years" data with
    | some (.l vs) => (vs.filter (fun y => !y.isEmpty)).map (fun y => lastFour (pyStrip y))
    | some (.s v) => if v.isEmpty then [] else v.map (fun c => lastFour (pyStrip [c]))
    | _ => []
  dedupKeepFirst fromImportant

/-- Modelled from the spec (SoftDegradation, §7): number pool without the
DOB year. -/
def numbersNoDobOf (data : Record) : List Str :=
  let lucky : List Str := match List.lookup "lucky_number" data with
    | some (.s v) => if v.isEmpty then [] else [sanitize v]
    | _ => []
  let phone : List Str := match List.lookup "phone" data with
    | some (.s v) =>
        if v.isEmpty then []
        else
          let p := sanitize v
          if p.length = 10 ∧ p.all Char.isDigit then [p.drop 6, p] else []
    | _ => []
  getYearsNoDob data ++ lucky ++ phone

/-- Modelled from the spec (SoftDegradation, §7): `generate_realistic` as it
behaves when no DOB facts are available. -/
def generateAsIfNoDob (ord : Nat → List Str → List Str) (data : Record)
    (count minLen maxLen : Nat)
    (includeSpecials includeUppercase : Bool) : List Str :=
  if (ord 0 (extractTokens data)).isEmpty then []
  else
    (ord 6 (pipelineSet ord (ord 0 (extractTokens data)) (nameOf data) none
      (numbersNoDobOf data) data count minLen maxLen
      includeSpecials includeUppercase)).take (min count MAX_OUTPUT)

/-- The identity order choice (one admissible resolution of every set-order
observation). -/
def idOrd : Nat → List Str → List Str := fun _ l => l

/-- Substring test: some tail of `s` starts with `pat`. -/
def containsSub (s pat : Str) : Bool :=
  (List.tails s).any (fun t => pat.isPrefixOf t)

/-- The date-variant strings derived from DOB `15/06/1990` (the seven
derivations of `date_variants`, deduplicated). -/
def dateVariantStrs : List Str :=
  [str "15061990", str "1990", str "90", str "1989", str "1991",
   str "15-06-1990"]

/-- Generous reading of "a candidate formed from `johnsmith` combined with a
date-variant of `1990`": the string contains `johnsmith` case-insensitively
and contains one of the date-variant strings. -/
def isJSDateCand (s : Str) : Bool :=
  containsSub (s.map Char.toLower) (str "johnsmith") &&
    dateVariantStrs.any (fun d => containsSub s d)

/-- The input record of the spec's seeded-candidate test property. -/
def dataC6 : Record :=
  [("dob", .s (str "15/06/1990")), ("full_name", .s (str "John Smith")),
   ("extra_words", .l [str "Rex"])]

/-- The 21 candidate bases, none derived from a `johnsmith` × date-variant
combination, that the pair and case stages provably admit on `dataC6`: the
six token-pair concatenations and their case variants. -/
def famBases : List Str :=
  [str "15/06/1990rex", str "15/06/1990.rex", str "15/06/1990_rex",
   str "johnsmithrex", str "johnsmith.rex", str "johnsmith_rex",
   str "15/06/1990REX", str "15/06/1990ReX",
   str "15/06/1990.REX", str "15/06/1990.rEx",
   str "15/06/1990_REX", str "15/06/1990_rEx",
   str "JOHNSMITHREX", str "Johnsmithrex", str "JoHnSmItHrEx",
   str "JOHNSMITH.REX", str "Johnsmith.rex", str "JoHnSmItH.ReX",
   str "JOHNSMITH_REX", str "Johnsmith_rex", str "JoHnSmItH_ReX"]

/-- The watermarked forms of `famBases`. -/
def famMarked : List Str := famBases.map (fun b => b ++ WATERMARK)

/-- The admissible special-append variants of the 21 bases, watermarked. -/
def famApp : List Str :=
  famMarked.flatMap (fun w =>
    ((appendSpecials (stripW w) true).filter (accepts 6 16)).map
      (fun v => v ++ WATERMARK))

/-- The admissible special-insert variants of the 21 bases that insert one
occurrence of the symbol `sp` (detected by occurrence count), watermarked.
Keeping each symbol's inserts separate and excluding `1`-inserts into bases
already containing `1` yields duplicate-free blocks. -/
def famInsSym (sp : Char) : List Str :=
  famMarked.flatMap (fun w =>
    ((insertSpecial (stripW w) true).filter
      (fun u => accepts 6 16 u &&
        decide (List.count sp u = List.count sp (stripW w) + 1))).map
      (fun v => v ++ WATERMARK))

/-- The `1`-insert variants of the bases containing no `1`, watermarked. -/
def famIns1 : List Str :=
  famMarked.flatMap (fun w =>
    ((insertSpecial (stripW w) true).filter
      (fun u => accepts 6 16 u && decide (List.count '1' (stripW w) = 0) &&
        decide (List.count '1' u = 1))).map
      (fun v => v ++ WATERMARK))

/-- 1133 distinct admissible candidates, none a `johnsmith` × date-variant
combination, all provably admitted by the specials stage (or earlier) on
`dataC6`. -/
def famD : List Str :=
  famMarked ++ (famApp ++ (famInsSym '!' ++ (famInsSym '@' ++
    (famInsSym '2' ++ famIns1))))

/-- The C6 pipeline stages at the adversarial order, named for the proofs. -/
def tokensC6 : List Str := extractTokens dataC6

/-- Puts the elements of `key` first, preserving relative order: an
admissible set-iteration order. -/
def frontLoad (key : List Str) (l : List Str) : List Str :=
  l.filter (fun s => decide (s ∈ key)) ++ l.filter (fun s => !(decide (s ∈ key)))

/-- An adversarial but admissible order choice for `dataC6`: the specials
snapshot starts with the 21 family bases and the final shuffle starts with
the 1133 family candidates. -/
def advOrdC6 : Nat → List Str → List Str := fun i l =>
  if i = 3 then frontLoad famMarked l
  else if i = 6 then frontLoad famD l
  else l

/-- Candidate set after the name×lucky and pair stages on `dataC6` (the
stages before any set-order observation). -/
def c3C6 : List Str :=
  stagePairs 6 16 tokensC6
    (stageNameLucky 6 16 (nameOf dataC6) dataC6
      (stageNameDate 6 16 (nameOf dataC6) (dobPartsOf dataC6) []))

/-- Candidate set after the case stage on `dataC6`. -/
def c4C6 : List Str := caseStage advOrdC6 6 16 true c3C6

/-- Candidate set after the leet stage on `dataC6`. -/
def c5C6 : List Str := leetStage advOrdC6 6 16 c4C6

/-- Candidate set after the specials stage on `dataC6`. -/
def c6C6 : List Str := specialsStage advOrdC6 6 16 true c5C6

/-- Candidate set after the numeric-suffix stage on `dataC6`. -/
def c7C6 : List Str := numericStage advOrdC6 6 16 (numbersOf dataC6) c6C6

/-- The full accumulated candidate set on `dataC6` at the adversarial
order. -/
def pipeC6 : List Str := fallbackStage advOrdC6 6 16 1000 tokensC6 c7C6

/-- Injective base-256 code of an ASCII string, used to check distinctness
of the candidate family cheaply. -/
def encStr (s : Str) : Nat := s.foldl (fun a c => a * 256 + c.toNat) 1

/-- Fuel-bounded merge of two lists (falls back to concatenation when the
fuel runs out, so it is permutation-correct for every fuel). -/
def merge2 : Nat → List Nat → List Nat → List Nat
  | 0, xs, ys => xs ++ ys
  | _ + 1, [], ys => ys
  | _ + 1, x :: xs, [] => x :: xs
  | f + 1, a :: as, b :: bs =>
      if a ≤ b then a :: merge2 f as (b :: bs) else b :: merge2 f (a :: as) bs

/-- Alternating split of a list into two halves. -/
def halve : List Nat → List Nat × List Nat
  | [] => ([], [])
  | a :: rest => ((halve rest).2.cons a, (halve rest).1)

/-- Fuel-bounded merge sort (structural recursion, so the kernel can
evaluate it). -/
def msort : Nat → List Nat → List Nat
  | 0, l => l
  | _ + 1, [] => []
  | _ + 1, [a] => [a]
  | f + 1, l => merge2 l.length (msort f (halve l).1) (msort f (halve l).2)

/-- Executable check that a list of naturals is strictly increasing. -/
def chainLt : List Nat → Bool
  | [] => true
  | [_] => true
  | a :: b :: rest => decide (a < b) && chainLt (b :: rest)

/-- Small record used by witness instances: two short name tokens. -/
def dataW : Record :=
  [("full_name", .s (str "alice")), ("nickname", .s (str "bobby"))]

/-- Record with only a skipped field: token extraction yields nothing. -/
def dataNoTok : Record := [("apps", .l [str "instagram"])]

/-- Record whose `important_years` entry the claimed extraction rule would
turn into a token. -/
def dataIY : Record := [("important_years", .l [str "1990"])]

/-- Record with a malformed DOB (dashes instead of slashes). -/
def dataMalDob : Record :=
  [("full_name", .s (str "alice")), ("dob", .s (str "15-06-1990"))]

/-- Record with three short tokens: every pair/permutation concatenation is
shorter than `min_len = 8`. -/
def dataC3 : Record :=
  [("full_name", .s (str "ab")), ("nickname", .s (str "cd")),
   ("email", .s (str "ef"))]

/-- The CandidateSet invariant of the spec: every member is a watermarked
string whose unmarked length lies within the bounds. -/
def MarkedOK (minLen maxLen : Nat) (l : List Str) : Prop :=
  ∀ s ∈ l, ∃ w, s = w ++ WATERMARK ∧ minLen ≤ w.length ∧ w.length ≤ maxLen

/- ------------------------------------------------------------------ -/
/- Lemma layer: monotonicity, membership and invariants of the        -/
/- candidate accumulator and the transform stages.                    -/
/- ------------------------------------------------------------------ -/

theorem mem_insertIfNew {l : List Str} {s x : Str} :
    x ∈ insertIfNew l s ↔ x ∈ l ∨ x = s := by
  unfold insertIfNew
  split
  · constructor
    · exact fun h => Or.inl h
    · rintro (h | rfl) <;> assumption
  · simp [List.mem_append]

theorem insertIfNew_sublist (l : List Str) (s : Str) :
    List.Sublist l (insertIfNew l s) := by
  unfold insertIfNew
  split
  · exact List.Sublist.refl l
  · exact List.sublist_append_left l [s]

theorem insertIfNew_nodup {l : List Str} (h : l.Nodup) (s : Str) :
    (insertIfNew l s).Nodup := by
  unfold insertIfNew
  split
  · exact h
  · exact List.nodup_append.mpr ⟨h, List.nodup_singleton s, by
      intro a ha hs
      rcases List.mem_singleton.mp hs with rfl
      exact (by assumption : ¬ a ∈ l) ha⟩

theorem addC_sublist (minLen maxLen : Nat) (l : List Str) (w : Str) :
    List.Sublist l (addC minLen maxLen l w) := by
  unfold addC
  split
  · exact insertIfNew_sublist l (w ++ WATERMARK)
  · exact List.Sublist.refl l

theorem mem_addC_self {minLen maxLen : Nat} {w : Str} (l : List Str)
    (h : accepts minLen maxLen w = true) :
    w ++ WATERMARK ∈ addC minLen maxLen l w := by
  unfold addC
  rw [h]
  simp [mem_insertIfNew]

theorem addC_nodup {minLen maxLen : Nat} {l : List Str} (h : l.Nodup) (w : Str) :
    (addC minLen maxLen l w).Nodup := by
  unfold addC
  split
  · exact insertIfNew_nodup h (w ++ WATERMARK)
  · exact h

theorem foldl_sublist {α : Type} {g : List Str → α → List Str}
    (hg : ∀ acc x, List.Sublist acc (g acc x)) :
    ∀ (xs : List α) (l : List Str), List.Sublist l (xs.foldl g l) := by
  intro xs
  induction xs with
  | nil => exact fun l => List.Sublist.refl l
  | cons x xs ih => exact fun l => (hg l x).trans (ih (g l x))

theorem foldl_pres {α : Type} {Q : List Str → Prop} {g : List Str → α → List Str}
    (hg : ∀ acc x, Q acc → Q (g acc x)) :
    ∀ (xs : List α) (l : List Str), Q l → Q (xs.foldl g l) := by
  intro xs
  induction xs with
  | nil => exact fun l h => h
  | cons x xs ih => exact fun l h => ih (g l x) (hg l x h)

theorem mem_foldl_addC {minLen maxLen : Nat} {w : Str} {ws : List Str}
    (l : List Str) (hw : w ∈ ws) (ha : accepts minLen maxLen w = true) :
    w ++ WATERMARK ∈ ws.foldl (addC minLen maxLen) l := by
  induction ws generalizing l with
  | nil => cases hw
  | cons y ys ih =>
      rcases List.mem_cons.mp hw with rfl | hmem
      · exact (foldl_sublist (addC_sublist minLen maxLen) ys
          (addC minLen maxLen l w)).subset (mem_addC_self l ha)
      · exact ih (addC minLen maxLen l y) hmem

theorem runStage_sublist (f : Str → List Str) (minLen maxLen : Nat)
    (c snap : List Str) : List.Sublist c (runStage f minLen maxLen c snap) :=
  foldl_sublist (fun acc w => foldl_sublist (addC_sublist minLen maxLen) _ acc) snap c

theorem mem_runStage {f : Str → List Str} {minLen maxLen : Nat}
    {w v : Str} {snap : List Str} (c : List Str)
    (hw : w ∈ snap) (hv : v ∈ f (stripW w)) (ha : accepts minLen maxLen v = true) :
    v ++ WATERMARK ∈ runStage f minLen maxLen c snap := by
  induction snap generalizing c with
  | nil => cases hw
  | cons u us ih =>
      rcases List.mem_cons.mp hw with rfl | hmem
      · exact (foldl_sublist (fun acc w' =>
          foldl_sublist (addC_sublist minLen maxLen) _ acc) us _).subset
          (mem_foldl_addC c hv ha)
      · exact ih _ hmem

theorem runStage_nodup {f : Str → List Str} {minLen maxLen : Nat}
    {c : List Str} (h : c.Nodup) (snap : List Str) :
    (runStage f minLen maxLen c snap).Nodup := by
  unfold runStage
  exact foldl_pres (Q := List.Nodup) (fun acc w hacc =>
    foldl_pres (Q := List.Nodup) (fun acc' v hacc' => addC_nodup hacc' v)
      (f (stripW w)) acc hacc) snap c h

theorem permFallback_sublist (minLen maxLen : Nat) :
    ∀ (ps : List Str) (c : List Str) (r : Nat),
      List.Sublist c (permFallback minLen maxLen c r ps).1 := by
  intro ps
  induction ps with
  | nil => intro c r; cases r <;> exact List.Sublist.refl c
  | cons p ps ih =>
      intro c r
      cases r with
      | zero => exact List.Sublist.refl c
      | succ r =>
          exact (addC_sublist minLen maxLen c p).trans
            (ih (addC minLen maxLen c p) r)

theorem permFallback_pres {Q : List Str → Prop} {minLen maxLen : Nat}
    (hQ : ∀ acc w, Q acc → Q (addC minLen maxLen acc w)) :
    ∀ (ps : List Str) (c : List Str) (r : Nat),
      Q c → Q (permFallback minLen maxLen c r ps).1 := by
  intro ps
  induction ps with
  | nil => intro c r h; cases r <;> exact h
  | cons p ps ih =>
      intro c r h
      cases r with
      | zero => exact h
      | succ r => exact ih (addC minLen maxLen c p) r (hQ c p h)

theorem stageNameDate_sublist (minLen maxLen : Nat) (name : Str)
    (dp : Option DOBParts) (c : List Str) :
    List.Sublist c (stageNameDate minLen maxLen name dp c) := by
  unfold stageNameDate
  cases dp with
  | none => exact List.Sublist.refl c
  | some p =>
      dsimp only
      by_cases h : name.isEmpty = true
      · rw [if_pos h]
      · rw [if_neg h]
        exact foldl_sublist (fun acc d =>
          (addC_sublist minLen maxLen acc _).trans (addC_sublist minLen maxLen _ _)) _ c

theorem stageNameLucky_sublist (minLen maxLen : Nat) (name : Str)
    (data : Record) (c : List Str) :
    List.Sublist c (stageNameLucky minLen maxLen name data c) := by
  unfold stageNameLucky
  split
  · split
    · exact List.Sublist.refl c
    · exact (addC_sublist minLen maxLen c _).trans (addC_sublist minLen maxLen _ _)
  · exact List.Sublist.refl c

theorem stagePairs_sublist (minLen maxLen : Nat) (tokens : List Str)
    (c : List Str) : List.Sublist c (stagePairs minLen maxLen tokens c) :=
  foldl_sublist (fun acc ab =>
    ((addC_sublist minLen maxLen acc _).trans
      (addC_sublist minLen maxLen _ _)).trans (addC_sublist minLen maxLen _ _)) _ c

theorem caseStage_sublist (ord : Nat → List Str → List Str) (minLen maxLen : Nat)
    (iu : Bool) (c : List Str) : List.Sublist c (caseStage ord minLen maxLen iu c) := by
  unfold caseStage
  split
  · exact runStage_sublist _ minLen maxLen c _
  · exact List.Sublist.refl c

theorem leetStage_sublist (ord : Nat → List Str → List Str) (minLen maxLen : Nat)
    (c : List Str) : List.Sublist c (leetStage ord minLen maxLen c) :=
  runStage_sublist _ minLen maxLen c _

theorem specialsStage_sublist (ord : Nat → List Str → List Str) (minLen maxLen : Nat)
    (isp : Bool) (c : List Str) :
    List.Sublist c (specialsStage ord minLen maxLen isp c) := by
  unfold specialsStage
  split
  · exact runStage_sublist _ minLen maxLen c _
  · exact List.Sublist.refl c

theorem numericStage_sublist (ord : Nat → List Str → List Str) (minLen maxLen : Nat)
    (numbers : List Str) (c : List Str) :
    List.Sublist c (numericStage ord minLen maxLen numbers c) :=
  runStage_sublist _ minLen maxLen c _

theorem fallbackStage_sublist (ord : Nat → List Str → List Str)
    (minLen maxLen count : Nat) (tokens : List Str) (c : List Str) :
    List.Sublist c (fallbackStage ord minLen maxLen count tokens c) := by
  unfold fallbackStage
  split
  · exact permFallback_sublist minLen maxLen _ c _
  · exact List.Sublist.refl c

theorem accepts_spec {minLen maxLen : Nat} {w : Str}
    (h : accepts minLen maxLen w = true) :
    minLen ≤ w.length ∧ w.length ≤ maxLen ∧ w ∉ COMMON_BLACKLIST := by
  simpa [accepts] using h

theorem addC_marked {minLen maxLen : Nat} {l : List Str}
    (h : MarkedOK minLen maxLen l) (w : Str) :
    MarkedOK minLen maxLen (addC minLen maxLen l w) := by
  unfold addC
  split
  · intro x hx
    rcases mem_insertIfNew.mp hx with hx' | rfl
    · exact h x hx'
    · exact ⟨w, rfl, (accepts_spec (by assumption)).1, (accepts_spec (by assumption)).2.1⟩
  · exact h

theorem runStage_pres {Q : List Str → Prop} {f : Str → List Str}
    {minLen maxLen : Nat} {c : List Str}
    (hQ : ∀ acc w, Q acc → Q (addC minLen maxLen acc w))
    (h : Q c) (snap : List Str) : Q (runStage f minLen maxLen c snap) := by
  unfold runStage
  exact foldl_pres (Q := Q) (fun acc w hacc =>
    foldl_pres (Q := Q) (fun acc' v h' => hQ acc' v h') (f (stripW w)) acc hacc) snap c h

theorem stageNameDate_pres {Q : List Str → Prop} {minLen maxLen : Nat}
    (hQ : ∀ acc w, Q acc → Q (addC minLen maxLen acc w))
    (name : Str) (dp : Option DOBParts) {c : List Str} (h : Q c) :
    Q (stageNameDate minLen maxLen name dp c) := by
  unfold stageNameDate
  cases dp with
  | none => exact h
  | some p =>
      dsimp only
      split
      · exact h
      · exact foldl_pres (Q := Q) (fun acc d hacc => hQ _ _ (hQ _ _ hacc)) _ c h

theorem stageNameLucky_pres {Q : List Str → Prop} {minLen maxLen : Nat}
    (hQ : ∀ acc w, Q acc → Q (addC minLen maxLen acc w))
    (name : Str) (data : Record) {c : List Str} (h : Q c) :
    Q (stageNameLucky minLen maxLen name data c) := by
  unfold stageNameLucky
  split
  · split
    · exact h
    · exact hQ _ _ (hQ _ _ h)
  · exact h

theorem stagePairs_pres {Q : List Str → Prop} {minLen maxLen : Nat}
    (hQ : ∀ acc w, Q acc → Q (addC minLen maxLen acc w))
    (tokens : List Str) {c : List Str} (h : Q c) :
    Q (stagePairs minLen maxLen tokens c) :=
  foldl_pres (Q := Q) (fun acc ab hacc => hQ _ _ (hQ _ _ (hQ _ _ hacc))) _ c h

theorem caseStage_pres {Q : List Str → Prop} {minLen maxLen : Nat}
    (hQ : ∀ acc w, Q acc → Q (addC minLen maxLen acc w))
    (ord : Nat → List Str → List Str) (iu : Bool) {c : List Str} (h : Q c) :
    Q (caseStage ord minLen maxLen iu c) := by
  unfold caseStage
  split
  · exact runStage_pres hQ h _
  · exact h

theorem leetStage_pres {Q : List Str → Prop} {minLen maxLen : Nat}
    (hQ : ∀ acc w, Q acc → Q (addC minLen maxLen acc w))
    (ord : Nat → List Str → List Str) {c : List Str} (h : Q c) :
    Q (leetStage ord minLen maxLen c) :=
  runStage_pres hQ h _

theorem specialsStage_pres {Q : List Str → Prop} {minLen maxLen : Nat}
    (hQ : ∀ acc w, Q acc → Q (addC minLen maxLen acc w))
    (ord : Nat → List Str → List Str) (isp : Bool) {c : List Str} (h : Q c) :
    Q (specialsStage ord minLen maxLen isp c) := by
  unfold specialsStage
  split
  · exact runStage_pres hQ h _
  · exact h

theorem numericStage_pres {Q : List Str → Prop} {minLen maxLen : Nat}
    (hQ : ∀ acc w, Q acc → Q (addC minLen maxLen acc w))
    (ord : Nat → List Str → List Str) (numbers : List Str) {c : List Str} (h : Q c) :
    Q (numericStage ord minLen maxLen numbers c) :=
  runStage_pres hQ h _

theorem fallbackStage_pres {Q : List Str → Prop} {minLen maxLen : Nat}
    (hQ : ∀ acc w, Q acc → Q (addC minLen maxLen acc w))
    (ord : Nat → List Str → List Str) (count : Nat) (tokens : List Str)
    {c : List Str} (h : Q c) :
    Q (fallbackStage ord minLen maxLen count tokens c) := by
  unfold fallbackStage
  split
  · exact permFallback_pres hQ _ c _ h
  · exact h

theorem pipelineSet_pres {Q : List Str → Prop} {minLen maxLen : Nat}
    (hQ : ∀ acc w, Q acc → Q (addC minLen maxLen acc w))
    (hnil : Q []) (ord : Nat → List Str → List Str) (tokens : List Str)
    (name : Str) (dp : Option DOBParts) (numbers : List Str) (data : Record)
    (count : Nat) (isp iu : Bool) :
    Q (pipelineSet ord tokens name dp numbers data count minLen maxLen isp iu) := by
  unfold pipelineSet
  exact fallbackStage_pres hQ ord count tokens
    (numericStage_pres hQ ord numbers
      (specialsStage_pres hQ ord isp
        (leetStage_pres hQ ord
          (caseStage_pres hQ ord iu
            (stagePairs_pres hQ tokens
              (stageNameLucky_pres hQ name data
                (stageNameDate_pres hQ name dp hnil)))))))

theorem pipelineSet_marked (ord : Nat → List Str → List Str) (tokens : List Str)
    (name : Str) (dp : Option DOBParts) (numbers : List Str) (data : Record)
    (count minLen maxLen : Nat) (isp iu : Bool) :
    MarkedOK minLen maxLen
      (pipelineSet ord tokens name dp numbers data count minLen maxLen isp iu) :=
  pipelineSet_pres (Q := MarkedOK minLen maxLen) (fun acc w hacc => addC_marked hacc w)
    (fun s hs => absurd hs (List.not_mem_nil s)) ord tokens name dp numbers data count isp iu

theorem pipelineSet_nodup (ord : Nat → List Str → List Str) (tokens : List Str)
    (name : Str) (dp : Option DOBParts) (numbers : List Str) (data : Record)
    (count minLen maxLen : Nat) (isp iu : Bool) :
    (pipelineSet ord tokens name dp numbers data count minLen maxLen isp iu).Nodup :=
  pipelineSet_pres (Q := List.Nodup) (fun acc w hacc => addC_nodup hacc w) List.nodup_nil
    ord tokens name dp numbers data count isp iu

theorem pipelineSet_sublist_pairs (ord : Nat → List Str → List Str)
    (tokens : List Str) (name : Str) (dp : Option DOBParts) (numbers : List Str)
    (data : Record) (count minLen maxLen : Nat) (isp iu : Bool) :
    List.Sublist
      (stagePairs minLen maxLen tokens
        (stageNameLucky minLen maxLen name data
          (stageNameDate minLen maxLen name dp [])))
      (pipelineSet ord tokens name dp numbers data count minLen maxLen isp iu) := by
  unfold pipelineSet
  exact ((((caseStage_sublist ord minLen maxLen iu _).trans
    (leetStage_sublist ord minLen maxLen _)).trans
    (specialsStage_sublist ord minLen maxLen isp _)).trans
    (numericStage_sublist ord minLen maxLen numbers _)).trans
    (fallbackStage_sublist ord minLen maxLen count tokens _)

/- ------------------------------------------------------------------ -/
/- Claim theorems.                                                    -/
/- ------------------------------------------------------------------ -/

/-- Claim C1: for every input record, parameters and admissible set-iteration
order, every string returned by `generate_realistic` ends with the fixed
marker `--EDU`, and its length with the marker removed lies within
`[min_len, max_len]`. -/
theorem claim_C1_marker_and_bounds (ord : Nat → List Str → List Str)
    (hord : ∀ i l, List.Perm (ord i l) l) (data : Record)
    (count minLen maxLen : Nat) (isp iu : Bool) (s : Str)
    (hs : s ∈ generateRealistic ord data count minLen maxLen isp iu) :
    ∃ w, s = w ++ WATERMARK ∧ minLen ≤ w.length ∧ w.length ≤ maxLen := by
  unfold generateRealistic at hs
  split at hs
  · exact absurd hs (List.not_mem_nil s)
  · have h1 := (List.take_sublist _ _).subset hs
    have h2 := (hord 6 _).mem_iff.mp h1
    exact pipelineSet_marked ord _ _ _ _ data count minLen maxLen isp iu s h2

/-- Witness for C1: the theorem applied at a concrete record, parameters and
result element. -/
theorem claim_C1_witness :
    ∃ w, str "alicebobby--EDU" = w ++ WATERMARK ∧ 10 ≤ w.length ∧ w.length ≤ 11 :=
  claim_C1_marker_and_bounds idOrd (fun _ l => List.Perm.refl l) dataW 10 10 11
    false false (str "alicebobby--EDU") (by decide)

/-- Claim C7: the result of `generate_realistic` never has more than
`min(count, 5000)` elements. -/
theorem claim_C7_length_bound (ord : Nat → List Str → List Str) (data : Record)
    (count minLen maxLen : Nat) (isp iu : Bool) :
    (generateRealistic ord data count minLen maxLen isp iu).length ≤
      min count 5000 := by
  unfold generateRealistic
  split
  · simp
  · rw [List.length_take]
    exact inf_le_left

/-- Claim C8: when token extraction yields the empty set the generator
returns exactly the empty sequence, whatever the other fields and
parameters. -/
theorem claim_C8_empty_tokens (ord : Nat → List Str → List Str)
    (hord : ∀ i l, List.Perm (ord i l) l) (data : Record)
    (count minLen maxLen : Nat) (isp iu : Bool)
    (h : extractTokens data = []) :
    generateRealistic ord data count minLen maxLen isp iu = [] := by
  have h0 : ord 0 (extractTokens data) = [] := by
    rw [h]; exact List.Perm.eq_nil (hord 0 [])
  unfold generateRealistic
  rw [h0]
  rfl

/-- Witness for C8: a record holding only the reserved `apps` field. -/
theorem claim_C8_witness :
    generateRealistic idOrd dataNoTok 1000 6 16 true true = [] :=
  claim_C8_empty_tokens idOrd (fun _ l => List.Perm.refl l) dataNoTok
    1000 6 16 true true (by decide)

/-- Claim C10: the returned sequence never contains duplicate strings: the
accumulator is a set and shuffling/truncation preserve distinctness. -/
theorem claim_C10_nodup (ord : Nat → List Str → List Str)
    (hord : ∀ i l, List.Perm (ord i l) l) (data : Record)
    (count minLen maxLen : Nat) (isp iu : Bool) :
    (generateRealistic ord data count minLen maxLen isp iu).Nodup := by
  unfold generateRealistic
  split
  · exact List.nodup_nil
  · exact ((hord 6 _).symm.nodup
      (pipelineSet_nodup ord _ _ _ _ data count minLen maxLen isp iu)).sublist
      (List.take_sublist _ _)

/-- Witness for C10: the theorem applied at a concrete record and
parameters. -/
theorem claim_C10_witness :
    (generateRealistic idOrd dataW 10 10 11 false false).Nodup :=
  claim_C10_nodup idOrd (fun _ l => List.Perm.refl l) dataW 10 10 11 false false

/-- Claim C2 (code bug): on base `password`, `leet_variants` yields the fully
substituted variant `p455w0rd` and then, for each of the four substitutable
positions, the *unchanged* base — not single-character-substituted variants.
The translation table built by `str.maketrans` is keyed on character
ordinals, so the `table.get(c, c)` lookup with a character key always misses
and returns the default `c`. -/
theorem claim_C2_leet_single_subst_broken :
    leetVariants (str "password") =
      [str "p455w0rd", str "password", str "password", str "password",
       str "password"] := by decide

/-- Claim C5 counterexample: on base `aBc` with `include_upper`, the yielded
variants are `abc`, `ABC`, `Abc`, `AbC`; the claimed case-preserving
capitalization `ABc` (first letter uppercased, rest unchanged) is not among
them. -/
theorem claim_C5_counterexample :
    str "ABc" ∉ caseVariants (str "aBc") true := by decide

/-- Claim C5 (amended): `case_variants` with `include_upper` yields the
Python `str.capitalize()` variant: first character uppercased and every
remaining character lowercased (not case-preserving). -/
theorem claim_C5_amended (c : Char) (cs : List Char) :
    (Char.toUpper c :: cs.map Char.toLower) ∈ caseVariants (c :: cs) true := by
  simp [caseVariants, pyCapitalize]

/-- Claim C3 (amended): the permutation fallback feeds the shuffled
permutations one at a time through `add`, but it decrements its budget on
every attempted add whether or not the candidate is admitted: it consumes
exactly the first `remaining` permutations (or all of them when fewer), so
it can stop with the candidate set still below `count` while unconsumed
permutations remain. -/
theorem claim_C3_amended (minLen maxLen : Nat) (c : List Str) (r : Nat)
    (ps : List Str) :
    permFallback minLen maxLen c r ps =
      ((ps.take r).foldl (addC minLen maxLen) c, ps.drop r) := by
  induction ps generalizing c r with
  | nil => cases r <;> rfl
  | cons p ps ih =>
      cases r with
      | zero => rfl
      | succ r => simpa using ih (addC minLen maxLen c p) r

/-- Claim C3 counterexample: with the three short tokens of `dataC3`,
`min_len = 8` and `count = 5`, the fallback (receiving exactly the arguments
`generate_realistic` computes: empty accumulated set, budget 5, the twelve
2- and 3-token permutations) stops after five attempted adds with the
candidate set still empty and seven permutations unconsumed, and the overall
result has size 0 < count — the loop did not run until the set reached
`count` or the permutations were exhausted. -/
theorem claim_C3_counterexample :
    (permFallback 8 16 [] 5 (permsList (extractTokens dataC3))).1.length < 5 ∧
    (permFallback 8 16 [] 5 (permsList (extractTokens dataC3))).2 ≠ [] ∧
    generateRealistic idOrd dataC3 5 8 16 true true = [] := by decide

theorem extractStep_sublist (acc : List Str) (kv : String × Val) :
    List.Sublist acc (extractStep acc kv) := by
  unfold extractStep
  split
  · exact List.Sublist.refl acc
  · cases kv.2 with
    | s v => exact List.sublist_append_left acc _
    | l vs => exact List.sublist_append_left acc _

theorem mem_foldl_insertIfNew (l : List Str) (acc : List Str) (x : Str) :
    x ∈ l.foldl insertIfNew acc ↔ x ∈ acc ∨ x ∈ l := by
  induction l generalizing acc with
  | nil => simp
  | cons y ys ih =>
      rw [List.foldl_cons, ih, mem_insertIfNew]
      constructor
      · rintro ((h | rfl) | h)
        · exact Or.inl h
        · exact Or.inr (List.mem_cons_self _ _)
        · exact Or.inr (List.mem_cons_of_mem _ h)
      · rintro (h | h)
        · exact Or.inl (Or.inl h)
        · rcases List.mem_cons.mp h with rfl | h'
          · exact Or.inl (Or.inr rfl)
          · exact Or.inr h'

theorem mem_dedupKeepFirst {l : List Str} {x : Str} :
    x ∈ dedupKeepFirst l ↔ x ∈ l := by
  unfold dedupKeepFirst
  rw [mem_foldl_insertIfNew]
  simp

theorem dedupKeepFirst_nodup (l : List Str) : (dedupKeepFirst l).Nodup := by
  unfold dedupKeepFirst
  have : ∀ (xs : List Str) (acc : List Str), acc.Nodup → (xs.foldl insertIfNew acc).Nodup := by
    intro xs
    induction xs with
    | nil => exact fun acc h => h
    | cons y ys ih => exact fun acc h => ih _ (insertIfNew_nodup h y)
  exact this l [] List.nodup_nil

theorem sanitize_ne_nil {v : Str} (h : ¬ (sanitize v).isEmpty = true) :
    ¬ v.isEmpty = true := by
  intro hv
  exact h (by rw [List.isEmpty_iff.mp hv]; rfl)

theorem mem_extract_fold {data : Record} {kv : String × Val} (hkv : kv ∈ data)
    {x : Str} (hx : ∀ a : List Str, x ∈ extractStep a kv) (acc : List Str) :
    x ∈ data.foldl extractStep acc := by
  induction data generalizing acc with
  | nil => cases hkv
  | cons y ys ih =>
      rcases List.mem_cons.mp hkv with rfl | hmem
      · exact (foldl_sublist extractStep_sublist ys (extractStep acc kv)).subset (hx acc)
      · exact ih hmem (extractStep acc y)

theorem mem_extractTokens_of_fold {data : Record} {x : Str}
    (hx : x ∈ data.foldl extractStep []) (hne : ¬ x.isEmpty = true) :
    x ∈ extractTokens data := by
  unfold extractTokens
  exact List.mem_filter.mpr
    ⟨mem_dedupKeepFirst.mpr (List.mem_append_left _ hx), by simpa using hne⟩

/-- Claim C4 (amended): `extract_tokens` skips the nine keys `auth_phrase`,
`count`, `min_len`, `max_len`, `include_specials`, `include_uppercase`,
`extra_words`, `important_years`, `apps` — three more than the claimed
control-field set.  Every field outside that skip set with a truthy value
contributes its sanitized value (string field) or the sanitized non-empty
elements (sequence field), and `extra_words` elements are merged in; but
`important_years` elements do not appear among the tokens (they feed the
number pool instead — see the counterexample). -/
theorem claim_C4_amended :
    (∀ (data : Record) (k : String) (v : Str), (k, Val.s v) ∈ data →
      k ∉ skipKeys → ¬ (sanitize v).isEmpty = true →
      sanitize v ∈ extractTokens data) ∧
    (∀ (data : Record) (k : String) (vs : List Str) (x : Str),
      (k, Val.l vs) ∈ data → k ∉ skipKeys → x ∈ vs →
      ¬ (sanitize x).isEmpty = true → sanitize x ∈ extractTokens data) ∧
    (∀ (data : Record) (vs : List Str) (x : Str),
      List.lookup "extra_words" data = some (Val.l vs) → x ∈ vs →
      ¬ (sanitize x).isEmpty = true → sanitize x ∈ extractTokens data) := by
  refine ⟨?_, ?_, ?_⟩
  · intro data k v hkv hk hne
    refine mem_extractTokens_of_fold (mem_extract_fold hkv ?_ []) hne
    intro a
    unfold extractStep
    rw [if_neg]
    · simp
    · push_neg
      exact ⟨hk, by simpa [Val.truthy] using sanitize_ne_nil hne⟩
  · intro data k vs x hkv hk hxv hne
    refine mem_extractTokens_of_fold (mem_extract_fold hkv ?_ []) hne
    intro a
    unfold extractStep
    rw [if_neg]
    · refine List.mem_append_right _ (List.mem_map.mpr ⟨x, List.mem_filter.mpr ⟨hxv, ?_⟩, rfl⟩)
      simpa using sanitize_ne_nil hne
    · push_neg
      refine ⟨hk, ?_⟩
      simp only [Val.truthy, Bool.not_eq_false, Bool.not_eq_true]
      simpa using List.ne_nil_of_mem hxv
  · intro data vs x hlook hxv hne
    unfold extractTokens
    refine List.mem_filter.mpr
      ⟨mem_dedupKeepFirst.mpr (List.mem_append_right _ ?_), by simpa using hne⟩
    unfold extraWords
    rw [hlook]
    refine List.mem_map.mpr ⟨x, List.mem_filter.mpr ⟨hxv, ?_⟩, rfl⟩
    simpa using sanitize_ne_nil hne

/-- Claim C4 counterexample: for the record whose only field is
`important_years = ["1990"]`, the sanitized element `1990` is *not* among
the extracted tokens (the extraction is in fact empty): `important_years`
is in the skip set, contradicting the claimed control-field set and the
claimed in-particular consequence. -/
theorem claim_C4_counterexample :
    sanitize (str "1990") ∉ extractTokens dataIY := by decide

/-- Witness for C4 (amended): a concrete string field is extracted
sanitized. -/
theorem claim_C4_witness : sanitize (str "alice") ∈ extractTokens dataW :=
  claim_C4_amended.1 dataW "full_name" (str "alice") (by decide) (by decide)
    (by decide)

theorem parseDob_some_shape {dob : Str} {p : DOBParts}
    (hp : parseDob dob = some p) :
    ∃ (a b c d e f g h : Char), a.isDigit = true ∧ b.isDigit = true ∧
      c.isDigit = true ∧ d.isDigit = true ∧ e.isDigit = true ∧
      f.isDigit = true ∧ g.isDigit = true ∧ h.isDigit = true ∧
      dob = [a, b, '/', c, d, '/', e, f, g, h] := by
  unfold parseDob at hp
  split at hp
  · split at hp
    · rename_i a b s1 c d s2 e f g h hcond
      obtain ⟨h1, h2, h3, h4, h5, h6, h7, h8, h9, h10⟩ := hcond
      subst h3
      subst h6
      exact ⟨a, b, c, d, e, f, g, h, h1, h2, h4, h5, h7, h8, h9, h10, rfl⟩
    · exact absurd hp (by simp)
  · exact absurd hp (by simp)

theorem getYears_malformed {data : Record} {v : Str}
    (hv : List.lookup "dob" data = some (Val.s v))
    (hmal : parseDob v = none) : getYears data = getYearsNoDob data := by
  simp only [getYears, getYearsNoDob, hv]
  have hnil : (if v.isEmpty = true then ([] : List Str)
      else match parseDob v with
        | some p => [p.yyyy]
        | none => []) = [] := by
    split
    · rfl
    · rw [hmal]
  rw [hnil, List.nil_append]

/-- Claim C9: (a) `parse_dob` fails exactly when the input does not have the
shape two digits, slash, two digits, slash, four digits; (b) inside
`generate_realistic` that failure is swallowed: with a malformed `dob` field
the run coincides with the run that has no DOB-derived facts at all (no
date-variant stage input, no DOB year in the number pool), and no error is
propagated. -/
theorem claim_C9_dob_failure_swallowed :
    (∀ dob : Str, parseDob dob = none ↔
      ¬ ∃ (a b c d e f g h : Char), a.isDigit = true ∧ b.isDigit = true ∧
        c.isDigit = true ∧ d.isDigit = true ∧ e.isDigit = true ∧
        f.isDigit = true ∧ g.isDigit = true ∧ h.isDigit = true ∧
        dob = [a, b, '/', c, d, '/', e, f, g, h]) ∧
    (∀ (ord : Nat → List Str → List Str) (data : Record) (v : Str)
        (count minLen maxLen : Nat) (isp iu : Bool),
      List.lookup "dob" data = some (Val.s v) → parseDob v = none →
      generateRealistic ord data count minLen maxLen isp iu =
        generateAsIfNoDob ord data count minLen maxLen isp iu) := by
  constructor
  · intro dob
    constructor
    · rintro hnone ⟨a, b, c, d, e, f, g, h, h1, h2, h3, h4, h5, h6, h7, h8, rfl⟩
      rw [parseDob] at hnone
      simp [h1, h2, h3, h4, h5, h6, h7, h8] at hnone
    · intro hne
      cases hsome : parseDob dob with
      | none => rfl
      | some p =>
          obtain ⟨a, b, c, d, e, f, g, h, h1, h2, h3, h4, h5, h6, h7, h8, heq⟩ :=
            parseDob_some_shape hsome
          exact absurd ⟨a, b, c, d, e, f, g, h, h1, h2, h3, h4, h5, h6, h7, h8, heq⟩ hne
  · intro ord data v count minLen maxLen isp iu hv hmal
    have hdp : dobPartsOf data = none := by
      simp only [dobPartsOf, hv]
      split
      · rfl
      · exact hmal
    have hnums : numbersOf data = numbersNoDobOf data := by
      unfold numbersOf numbersNoDobOf
      rw [getYears_malformed hv hmal]
    unfold generateRealistic generateAsIfNoDob
    rw [hdp, hnums]

/-- Witness for C9: a DOB written with dashes is rejected by the parser and
the generator produces exactly the no-DOB-facts result. -/
theorem claim_C9_witness :
    generateRealistic idOrd dataMalDob 10 6 16 true true =
      generateAsIfNoDob idOrd dataMalDob 10 6 16 true true :=
  claim_C9_dob_failure_swallowed.2 idOrd dataMalDob (str "15-06-1990") 10 6 16
    true true (by decide) (by decide)

theorem advOrdC6_perm : ∀ i l, List.Perm (advOrdC6 i l) l := by
  intro i l
  unfold advOrdC6 frontLoad
  split
  · exact List.filter_append_perm _ l
  · split
    · exact List.filter_append_perm _ l
    · exact List.Perm.refl l

theorem mem_take_frontLoad {key l : List Str} {x : Str} {n : Nat}
    (hn : key.length ≤ n) (hl : l.Nodup) (hx : x ∈ l) (hxk : x ∈ key) :
    x ∈ (frontLoad key l).take n := by
  have hxA : x ∈ l.filter (fun s => decide (s ∈ key)) :=
    List.mem_filter.mpr ⟨hx, by simpa using hxk⟩
  have hA_nodup : (l.filter (fun s => decide (s ∈ key))).Nodup := hl.filter _
  have hA_sub : (l.filter (fun s => decide (s ∈ key))) ⊆ key := fun a ha => by
    simpa using (List.mem_filter.mp ha).2
  have hA_len : (l.filter (fun s => decide (s ∈ key))).length ≤ n :=
    le_trans (hA_nodup.subperm hA_sub).length_le hn
  unfold frontLoad
  rw [List.take_append_eq_append_take, List.take_of_length_le hA_len]
  exact List.mem_append_left _ hxA

set_option maxHeartbeats 8000000 in
theorem famMarked_sub_c4C6 : ∀ w ∈ famMarked, w ∈ c4C6 := by decide

set_option maxHeartbeats 8000000 in
theorem c3C6_nodup : c3C6.Nodup := by decide

theorem c4C6_nodup : c4C6.Nodup :=
  caseStage_pres (Q := List.Nodup) (fun acc w h => addC_nodup h w) advOrdC6 true
    c3C6_nodup

theorem c5C6_nodup : c5C6.Nodup :=
  leetStage_pres (Q := List.Nodup) (fun acc w h => addC_nodup h w) advOrdC6
    c4C6_nodup

theorem famMarked_sub_c5C6 : ∀ w ∈ famMarked, w ∈ c5C6 := fun w hw =>
  (leetStage_sublist advOrdC6 6 16 c4C6).subset (famMarked_sub_c4C6 w hw)

theorem mem_c6C6_of_special {w u : Str} (hw : w ∈ famMarked)
    (hu : u ∈ appendSpecials (stripW w) true ∨ u ∈ insertSpecial (stripW w) true)
    (hacc : accepts 6 16 u = true) : u ++ WATERMARK ∈ c6C6 := by
  have hsnap : w ∈ (advOrdC6 3 c5C6).take 400 := by
    show w ∈ (frontLoad famMarked c5C6).take 400
    exact mem_take_frontLoad (by decide) c5C6_nodup (famMarked_sub_c5C6 w hw) hw
  show u ++ WATERMARK ∈
    runStage (fun b => appendSpecials b true ++ insertSpecial b true) 6 16 c5C6
      ((advOrdC6 3 c5C6).take 400)
  refine mem_runStage c5C6 hsnap ?_ hacc
  rcases hu with h | h
  · exact List.mem_append_left _ h
  · exact List.mem_append_right _ h

theorem famApp_sub_c6C6 : ∀ v ∈ famApp, v ∈ c6C6 := by
  intro v hv
  obtain ⟨w, hw, hv2⟩ := List.mem_flatMap.mp hv
  obtain ⟨u, hu, rfl⟩ := List.mem_map.mp hv2
  obtain ⟨humem, hacc⟩ := List.mem_filter.mp hu
  exact mem_c6C6_of_special hw (Or.inl humem) hacc

theorem famInsSym_sub_c6C6 (sp : Char) : ∀ v ∈ famInsSym sp, v ∈ c6C6 := by
  intro v hv
  obtain ⟨w, hw, hv2⟩ := List.mem_flatMap.mp hv
  obtain ⟨u, hu, rfl⟩ := List.mem_map.mp hv2
  obtain ⟨humem, hacc⟩ := List.mem_filter.mp hu
  simp only [Bool.and_eq_true] at hacc
  exact mem_c6C6_of_special hw (Or.inr humem) hacc.1

theorem famIns1_sub_c6C6 : ∀ v ∈ famIns1, v ∈ c6C6 := by
  intro v hv
  obtain ⟨w, hw, hv2⟩ := List.mem_flatMap.mp hv
  obtain ⟨u, hu, rfl⟩ := List.mem_map.mp hv2
  obtain ⟨humem, hacc⟩ := List.mem_filter.mp hu
  simp only [Bool.and_eq_true] at hacc
  exact mem_c6C6_of_special hw (Or.inr humem) hacc.1.1

theorem famD_sub_c6C6 : ∀ v ∈ famD, v ∈ c6C6 := by
  intro v hv
  unfold famD at hv
  rcases List.mem_append.mp hv with h | hv
  · exact (specialsStage_sublist advOrdC6 6 16 true c5C6).subset
      ((leetStage_sublist advOrdC6 6 16 c4C6).subset (famMarked_sub_c4C6 v h))
  rcases List.mem_append.mp hv with h | hv
  · exact famApp_sub_c6C6 v h
  rcases List.mem_append.mp hv with h | hv
  · exact famInsSym_sub_c6C6 '!' v h
  rcases List.mem_append.mp hv with h | hv
  · exact famInsSym_sub_c6C6 '@' v h
  rcases List.mem_append.mp hv with h | h
  · exact famInsSym_sub_c6C6 '2' v h
  · exact famIns1_sub_c6C6 v h

theorem famD_sub_pipeC6 : ∀ v ∈ famD, v ∈ pipeC6 := fun v hv =>
  ((numericStage_sublist advOrdC6 6 16 (numbersOf dataC6) c6C6).trans
    (fallbackStage_sublist advOrdC6 6 16 1000 tokensC6 c7C6)).subset
    (famD_sub_c6C6 v hv)

theorem merge2_perm (f : Nat) : ∀ xs ys : List Nat,
    List.Perm (merge2 f xs ys) (xs ++ ys) := by
  induction f with
  | zero => exact fun xs ys => List.Perm.refl _
  | succ f ih =>
      intro xs ys
      cases xs with
      | nil => exact List.Perm.refl _
      | cons a as =>
          cases ys with
          | nil => simp [merge2]
          | cons b bs =>
              show List.Perm (if a ≤ b then a :: merge2 f as (b :: bs)
                else b :: merge2 f (a :: as) bs) _
              split
              · exact (ih as (b :: bs)).cons a
              · exact ((ih (a :: as) bs).cons b).trans List.perm_middle.symm

theorem halve_perm : ∀ l : List Nat,
    List.Perm ((halve l).1 ++ (halve l).2) l := by
  intro l
  induction l with
  | nil => exact List.Perm.refl _
  | cons a rest ih =>
      show List.Perm ((a :: (halve rest).2) ++ (halve rest).1) (a :: rest)
      refine List.Perm.cons a ?_
      exact (List.perm_append_comm).trans ih

theorem msort_perm (f : Nat) : ∀ l : List Nat, List.Perm (msort f l) l := by
  induction f with
  | zero => exact fun l => List.Perm.refl l
  | succ f ih =>
      intro l
      match l with
      | [] => exact List.Perm.refl _
      | [a] => exact List.Perm.refl _
      | a :: b :: rest =>
          show List.Perm (merge2 (a :: b :: rest).length
            (msort f (halve (a :: b :: rest)).1)
            (msort f (halve (a :: b :: rest)).2)) (a :: b :: rest)
          exact ((merge2_perm _ _ _).trans
            ((ih _).append (ih _))).trans (halve_perm _)

theorem chainLt_pairwise : ∀ l : List Nat, chainLt l = true →
    List.Pairwise (· < ·) l := by
  intro l
  induction l with
  | nil => intro _; exact List.Pairwise.nil
  | cons a t ih =>
      cases t with
      | nil => intro _; exact List.pairwise_singleton _ a
      | cons b rest =>
          intro h
          simp only [chainLt, Bool.and_eq_true, decide_eq_true_eq] at h
          have hpair := ih (by simpa [chainLt] using h.2)
          refine List.Pairwise.cons ?_ hpair
          intro x hx
          rcases List.mem_cons.mp hx with rfl | hx'
          · exact h.1
          · exact Nat.lt_trans h.1 (List.rel_of_pairwise_cons hpair hx')

set_option maxHeartbeats 100000000 in
theorem famD_keys_chain : chainLt (msort 40 (famD.map encStr)) = true := by decide

theorem famD_nodup : famD.Nodup :=
  List.Nodup.of_map encStr
    ((msort_perm 40 (famD.map encStr)).nodup
      ((chainLt_pairwise _ famD_keys_chain).imp (fun h => Nat.ne_of_lt h)))

set_option maxHeartbeats 8000000 in
theorem famD_len : 1000 ≤ famD.length := by decide

set_option maxHeartbeats 100000000 in
theorem famD_safe : famD.all (fun v => !(isJSDateCand v)) = true := by decide

theorem pipeC6_nodup : pipeC6.Nodup :=
  fallbackStage_pres (Q := List.Nodup) (fun acc w h => addC_nodup h w) advOrdC6
    1000 tokensC6
    (numericStage_pres (Q := List.Nodup) (fun acc w h => addC_nodup h w) advOrdC6
      (numbersOf dataC6)
      (specialsStage_pres (Q := List.Nodup) (fun acc w h => addC_nodup h w)
        advOrdC6 true c5C6_nodup))

/-- Claim C6 counterexample: at the admissible adversarial order `advOrdC6`
(every component is a permutation, see `advOrdC6_perm`), no element of the
sequence returned for the C6 record with the default parameters contains
`johnsmith` (case-insensitively) together with any date-variant of `1990`:
the accumulated set holds at least 1133 other admissible candidates, and the
final shuffled truncation to `count = 1000` can therefore exclude every
`johnsmith` × date-variant candidate. -/
theorem claim_C6_counterexample :
    (generateRealistic advOrdC6 dataC6 1000 6 16 true true).all
      (fun s => !(isJSDateCand s)) = true := by
  have hfilter : famD ⊆ pipeC6.filter (fun s => decide (s ∈ famD)) := by
    intro v hv
    exact List.mem_filter.mpr ⟨famD_sub_pipeC6 v hv, by simpa using hv⟩
  have hAlen : 1000 ≤ (pipeC6.filter (fun s => decide (s ∈ famD))).length :=
    le_trans famD_len (famD_nodup.subperm hfilter).length_le
  have hz : 1000 - (pipeC6.filter (fun s => decide (s ∈ famD))).length = 0 :=
    Nat.sub_eq_zero_of_le hAlen
  have h0 : advOrdC6 0 (extractTokens dataC6) = tokensC6 := rfl
  have hne : ¬ tokensC6.isEmpty = true := by decide
  have hP : pipelineSet advOrdC6 tokensC6 (nameOf dataC6) (dobPartsOf dataC6)
      (numbersOf dataC6) dataC6 1000 6 16 true true = pipeC6 := by
    unfold pipelineSet pipeC6 c7C6 c6C6 c5C6 c4C6 c3C6
    rfl
  have h6 : advOrdC6 6 pipeC6 = frontLoad famD pipeC6 := rfl
  have hfl : frontLoad famD pipeC6 =
      pipeC6.filter (fun s => decide (s ∈ famD)) ++
        pipeC6.filter (fun s => !(decide (s ∈ famD))) := rfl
  have hmin : min 1000 MAX_OUTPUT = 1000 := by decide
  unfold generateRealistic
  rw [h0, if_neg hne, hP, h6, hfl, hmin, List.take_append_eq_append_take, hz,
    List.take_zero, List.append_nil]
  refine List.all_eq_true.mpr ?_
  intro s hs
  have hsA := (List.take_sublist _ _).subset hs
  have hsD : s ∈ famD := by simpa using (List.mem_filter.mp hsA).2
  exact List.all_eq_true.mp famD_safe s hsD

/-- Claim C6 (amended): on the C6 record the accumulated candidate set always
contains `johnsmith1990--EDU` (for every admissible set-iteration order), and
the returned sequence contains it whenever the accumulated set has at most
`count` elements; when the set exceeds `count` — as it does for this record —
the unspecified shuffled truncation may omit every `johnsmith` ×
date-variant candidate (see the counterexample). -/
theorem claim_C6_amended (ord : Nat → List Str → List Str)
    (hord : ∀ i l, List.Perm (ord i l) l) :
    str "johnsmith1990" ++ WATERMARK ∈
      pipelineSet ord (ord 0 (extractTokens dataC6)) (nameOf dataC6)
        (dobPartsOf dataC6) (numbersOf dataC6) dataC6 1000 6 16 true true ∧
    ((pipelineSet ord (ord 0 (extractTokens dataC6)) (nameOf dataC6)
          (dobPartsOf dataC6) (numbersOf dataC6) dataC6 1000 6 16 true
          true).length ≤ 1000 →
      str "johnsmith1990" ++ WATERMARK ∈
        generateRealistic ord dataC6 1000 6 16 true true) := by
  have h1 : str "johnsmith1990" ++ WATERMARK ∈
      stageNameDate 6 16 (nameOf dataC6) (dobPartsOf dataC6) [] := by decide
  have h3 : str "johnsmith1990" ++ WATERMARK ∈
      pipelineSet ord (ord 0 (extractTokens dataC6)) (nameOf dataC6)
        (dobPartsOf dataC6) (numbersOf dataC6) dataC6 1000 6 16 true true :=
    (pipelineSet_sublist_pairs ord _ _ _ _ dataC6 1000 6 16 true true).subset
      ((stagePairs_sublist 6 16 _ _).subset
        ((stageNameLucky_sublist 6 16 _ dataC6 _).subset h1))
  refine ⟨h3, fun hlen => ?_⟩
  have hne : ¬ (ord 0 (extractTokens dataC6)).isEmpty = true := by
    intro hEmpty
    have hp := hord 0 (extractTokens dataC6)
    rw [List.isEmpty_iff.mp hEmpty] at hp
    exact absurd (List.Perm.eq_nil hp.symm) (by decide)
  unfold generateRealistic
  rw [if_neg hne]
  have hmin : min 1000 MAX_OUTPUT = 1000 := by decide
  rw [hmin]
  have hlen6 : (ord 6 (pipelineSet ord (ord 0 (extractTokens dataC6))
      (nameOf dataC6) (dobPartsOf dataC6) (numbersOf dataC6) dataC6 1000 6 16
      true true)).length ≤ 1000 := by
    rw [(hord 6 _).length_eq]
    exact hlen
  rw [List.take_of_length_le hlen6]
  exact (hord 6 _).mem_iff.mpr h3

/-- Witness for C6 (amended): the candidate set built at the identity order
contains the seeded candidate. -/
theorem claim_C6_witness :
    str "johnsmith1990" ++ WATERMARK ∈
      pipelineSet idOrd (idOrd 0 (extractTokens dataC6)) (nameOf dataC6)
        (dobPartsOf dataC6) (numbersOf dataC6) dataC6 1000 6 16 true true :=
  (claim_C6_amended idOrd (fun _ l => List.Perm.refl l)).1
